import Mathlib

/-
Verification of the LogSentry core (parser chain, rule engine, analyzer)
against its natural-language specification.

Shallow embedding conventions:
 - Python floats that carry exact decimal arithmetic (confidence values,
   severity weights) are modelled as rationals.
 - Python ints are modelled as Nat or Int.
 - Timestamps are modelled as integers (timezone-naive datetimes form a
   total order; only comparisons are used by the embedded code).
 - Compiled regex patterns are modelled as opaque-to-the-claims functions
   `String -> List String` returning the findall result list (stringified,
   as the source applies str() to matches); the engine's plumbing around
   them is embedded exactly.
-/

namespace LogSentry

/-- Severity enum from rules.py (LOW, MEDIUM, HIGH, CRITICAL). -/
inductive Severity where
  | low
  | medium
  | high
  | critical
deriving DecidableEq, BEq, Repr

/-- Detection dataclass from rules.py. -/
structure Detection where
  rule_name : String
  severity : Severity
  description : String
  matched_text : String
  line_number : ℕ
  timestamp : Option String
  category : String
  tags : List String
  confidence : ℚ
deriving DecidableEq, Repr

/-- DetectionRule dataclass from rules.py (regex_flags omitted: patterns are
modelled by their compiled behaviour, see analyze_line). -/
structure Rule where
  name : String
  description : String
  severity : Severity
  pattern : String
  category : String
  tags : List String
deriving DecidableEq, Repr

/-- severity_boost table inside RuleEngine._calculate_confidence. -/
def severityBoost : Severity → ℚ
  | .low => 0
  | .medium => 1/10
  | .high => 2/10
  | .critical => 3/10

/-- RuleEngine._calculate_confidence from rules.py: base 0.7, plus severity
boost, plus 0.1 when the rule matched more than once on the line, minus 0.1
when the first match is shorter than 5 characters, clamped into [0.1, 1.0].
The `line` argument is accepted and ignored exactly as in the source. -/
def calculate_confidence (rule : Rule) (line : String) (matchList : List String) : ℚ :=
  let base : ℚ := 7/10
  let c1 := base + severityBoost rule.severity
  let c2 := if matchList.length > 1 then c1 + 1/10 else c1
  let c3 :=
    match matchList with
    | [] => c2
    | m :: _ => if m.length < 5 then c2 - 1/10 else c2
  min 1 (max (1/10) c3)

/-- One iteration of the rule loop in RuleEngine.analyze_line: look up the
compiled pattern by rule name (a rule whose pattern failed to compile is
absent and skipped), run findall, and on a non-empty match list build one
Detection whose matched_text is the first match. -/
def analyzeLineRule (compiled : String → Option (String → List String))
    (line : String) (line_number : ℕ) (timestamp : Option String)
    (rule : Rule) : Option Detection :=
  match compiled rule.name with
  | none => none
  | some pat =>
    match pat line with
    | [] => none
    | m :: _ =>
      some
        { rule_name := rule.name
          severity := rule.severity
          description := rule.description
          matched_text := m
          line_number := line_number
          timestamp := timestamp
          category := rule.category
          tags := rule.tags
          confidence := calculate_confidence rule line (pat line) }

/-- RuleEngine.analyze_line from rules.py: iterate the rule catalog in order,
appending at most one Detection per rule. -/
def analyze_line (rules : List Rule) (compiled : String → Option (String → List String))
    (line : String) (line_number : ℕ) (timestamp : Option String) : List Detection :=
  rules.filterMap (analyzeLineRule compiled line line_number timestamp)

/-- RuleEngine.analyze_log_chunk from rules.py: analyze each line with line
numbers counting up from start_line; timestamps are not supplied (the source
calls analyze_line(line, line_number) leaving timestamp = None). -/
def analyze_log_chunk (rules : List Rule) (compiled : String → Option (String → List String)) :
    List String → ℕ → List Detection
  | [], _ => []
  | line :: rest, start_line =>
      analyze_line rules compiled line start_line none
        ++ analyze_log_chunk rules compiled rest (start_line + 1)

/-- LogEntry dataclass from parsers.py. fields is an open key-value map,
modelled as an association list of strings. -/
structure LogEntry where
  raw_line : String
  timestamp : Option ℤ
  source_ip : Option String
  message : String
  fields : List (String × String)
  log_type : String
  line_number : ℕ
deriving DecidableEq, Repr

/-- One element of the parser chain from parsers.py: the LogParser interface
(can_parse, parse). The six concrete parsers' regex internals are modelled by
their behaviour; the chain logic around them is embedded exactly. -/
structure Parser where
  name : String
  canParse : String → Bool
  parse : String → ℕ → Option LogEntry

/-- LogParserManager.__init__ from parsers.py: the fixed-priority parser list,
in source order, with the generic fallback kept last. -/
def managerParsers (apache syslog windowsEvent firewall jsonP generic : Parser) : List Parser :=
  [apache, syslog, windowsEvent, firewall, jsonP, generic]

/-- LogParserManager.parse_line from parsers.py: commit to the first parser
whose can_parse returns true; its parse result (even None) is final. -/
def parse_line (parsers : List Parser) (line : String) (line_number : ℕ) : Option LogEntry :=
  match parsers with
  | [] => none
  | p :: rest =>
    if p.canParse line then p.parse line line_number
    else parse_line rest line line_number

/-- LogParserManager.parse_lines from parsers.py: parse each line with line
numbers counting up from start_line, keeping only successful parses. -/
def parse_lines (parsers : List Parser) : List String → ℕ → List LogEntry
  | [], _ => []
  | line :: rest, start_line =>
    match parse_line parsers line start_line with
    | some entry => entry :: parse_lines parsers rest (start_line + 1)
    | none => parse_lines parsers rest (start_line + 1)

/-- LogAnalyzer._read_in_chunks from analyzer.py, chunk grouping: consecutive
groups of chunk_size lines, with a final short group. When chunk_size is 0
the source's `len(chunk) >= self.chunk_size` test is true after every append,
yielding singleton chunks; `max n 1` reproduces that. -/
def chunksOf (n : ℕ) (l : List String) : List (List String) :=
  match l with
  | [] => []
  | x :: xs => ((x :: xs).take (max n 1)) :: chunksOf n ((x :: xs).drop (max n 1))
termination_by l.length
decreasing_by
  simp only [List.length_drop, List.length_cons]
  omega

/-- LogAnalyzer._read_in_chunks from analyzer.py: an optional max_lines cap
truncates the stream before chunking. Python's `if max_lines and ...` treats
a cap of 0 as falsy, so `some 0` imposes no cap. -/
def read_in_chunks (chunk_size : ℕ) (lines : List String) (max_lines : Option ℕ) :
    List (List String) :=
  match max_lines with
  | none => chunksOf chunk_size lines
  | some 0 => chunksOf chunk_size lines
  | some m => chunksOf chunk_size (lines.take m)

/-- Running state of the chunk loop in LogAnalyzer.analyze_file. -/
structure FileLoopState where
  totalLines : ℕ
  parsedLines : ℕ
  entries : List LogEntry
  detections : List Detection

/-- One iteration of the chunk loop in LogAnalyzer.analyze_file: entries are
parsed with the global offset total_lines + 1, while detections come from
analyze_log_chunk(chunk) with its start_line left at the default 1, exactly
as in the source. -/
def fileLoopStep (parsers : List Parser) (rules : List Rule)
    (compiled : String → Option (String → List String))
    (st : FileLoopState) (chunk : List String) : FileLoopState :=
  let chunk_entries := parse_lines parsers chunk (st.totalLines + 1)
  let chunk_detections := analyze_log_chunk rules compiled chunk 1
  { totalLines := st.totalLines + chunk.length
    parsedLines := st.parsedLines + chunk_entries.length
    entries := st.entries ++ chunk_entries
    detections := st.detections ++ chunk_detections }

/-- The chunk loop of LogAnalyzer.analyze_file over an already-chunked input. -/
def analyzeFileLoop (parsers : List Parser) (rules : List Rule)
    (compiled : String → Option (String → List String))
    (chunks : List (List String)) : FileLoopState :=
  chunks.foldl (fileLoopStep parsers rules compiled) ⟨0, 0, [], []⟩

/-- The line-count portion of LogAnalyzer.analyze_text: total_lines is the
number of split lines, parsed_lines the number of successfully parsed ones
(parse_lines is called with its default start_line = 1). -/
def analyze_text_counts (parsers : List Parser) (text : String) : ℕ × ℕ :=
  let lines := text.trim.splitOn "\n"
  (lines.length, (parse_lines parsers lines 1).length)

/-- Per-IP record built by LogAnalyzer._analyze_ips (the defaultdict value). -/
structure IPStat where
  count : ℕ
  first_seen : Option ℤ
  last_seen : Option ℤ
  dets : List Detection
  is_private : Bool
  geolocation : List (String × String)
deriving DecidableEq, Repr

/-- The defaultdict initial value in LogAnalyzer._analyze_ips. -/
def emptyIPStat : IPStat :=
  { count := 0, first_seen := none, last_seen := none
    dets := [], is_private := false, geolocation := [] }

/-- get_geolocation_info from utils.py: a stub returning constant data. -/
def get_geolocation_info (ip : String) : List (String × String) :=
  [("country", "Unknown"), ("city", "Unknown"), ("asn", "Unknown"),
   ("is_tor", "False"), ("is_vpn", "False")]

/-- Dictionary lookup on the insertion-ordered ip_stats association list. -/
def lookupStat : List (String × IPStat) → String → Option IPStat
  | [], _ => none
  | (k, v) :: rest, ip => if k = ip then some v else lookupStat rest ip

/-- Dictionary write on the insertion-ordered ip_stats association list: a
fresh key is appended at the end, matching Python dict insertion order. -/
def setStat : List (String × IPStat) → String → IPStat → List (String × IPStat)
  | [], ip, st => [(ip, st)]
  | (k, v) :: rest, ip, st =>
    if k = ip then (k, st) :: rest else (k, v) :: setStat rest ip st

/-- The per-entry statistics update in LogAnalyzer._analyze_ips: only entries
with a source_ip accepted by is_valid_ip touch ip_stats; count, private flag
and min/max timestamps are maintained. The validators is_valid_ip and
is_private_ip (utils.py, via the ipaddress library) are abstracted as
function arguments. -/
def ipEntryStep (valid priv : String → Bool)
    (stats : List (String × IPStat)) (e : LogEntry) : List (String × IPStat) :=
  match e.source_ip with
  | none => stats
  | some ip =>
    if valid ip then
      let cur := (lookupStat stats ip).getD emptyIPStat
      let cur := { cur with count := cur.count + 1, is_private := priv ip }
      let cur :=
        match e.timestamp with
        | none => cur
        | some t =>
          let fs :=
            match cur.first_seen with
            | none => some t
            | some f => if t < f then some t else some f
          let ls :=
            match cur.last_seen with
            | none => some t
            | some l => if l < t then some t else some l
          { cur with first_seen := fs, last_seen := ls }
      setStat stats ip cur
    else stats

/-- The per-detection association step in LogAnalyzer._analyze_ips: every
IPv4-looking substring of the detection's matched_text (extract_ips_from_text,
abstracted as the extract argument) is looked up in ip_stats, and the
detection is appended only to records that already exist. -/
def ipDetStep (extract : String → List String)
    (stats : List (String × IPStat)) (d : Detection) : List (String × IPStat) :=
  (extract d.matched_text).foldl
    (fun st ip =>
      match lookupStat st ip with
      | none => st
      | some cur => setStat st ip { cur with dets := cur.dets ++ [d] })
    stats

/-- The geolocation pass in LogAnalyzer._analyze_ips: public records get the
stub geolocation data; keys and all other fields are untouched. -/
def ipGeoStep (p : String × IPStat) : String × IPStat :=
  if p.2.is_private then p else (p.1, { p.2 with geolocation := get_geolocation_info p.1 })

/-- The dictionary assembled and returned by LogAnalyzer._analyze_ips. -/
structure IpAnalysisResult where
  total_unique_ips : ℕ
  private_ips : ℕ
  public_ips : ℕ
  top_ips : List (String × IPStat)
  suspicious_ips : List (String × IPStat)

/-- LogAnalyzer._analyze_ips from analyzer.py: fold entries, then detections,
then the geolocation pass; report unique/private/public counts, the top 20
IPs by count descending (Python sorted with reverse=True is a stable merge
sort under the flipped comparison), and the records with at least one
associated detection. -/
def analyze_ips (valid priv : String → Bool) (extract : String → List String)
    (entries : List LogEntry) (detections : List Detection) : IpAnalysisResult :=
  let stats1 := entries.foldl (ipEntryStep valid priv) []
  let stats2 := detections.foldl (ipDetStep extract) stats1
  let stats3 := stats2.map ipGeoStep
  { total_unique_ips := stats3.length
    private_ips := (stats3.filter (fun p => p.2.is_private)).length
    public_ips := (stats3.filter (fun p => !p.2.is_private)).length
    top_ips := (stats3.mergeSort (fun a b => b.2.count ≤ a.2.count)).take 20
    suspicious_ips := stats3.filter (fun p => p.2.dets.length > 0) }

/-- severity_weights table inside LogAnalyzer._calculate_risk_score. -/
def severityWeight : Severity → ℚ
  | .low => 1
  | .medium => 3
  | .high => 7
  | .critical => 15

/-- The dictionary returned by LogAnalyzer._calculate_risk_score. -/
structure RiskScore where
  score : ℤ
  level : String
  factors : List String
deriving DecidableEq, Repr

/-- LogAnalyzer._calculate_risk_score from analyzer.py: early return for an
empty detection list; otherwise sum severity weight times confidence, add
2 per suspicious IP when any exist, add 5 when more than 50 public IPs,
normalize with min(100, int(base / max(1, n) * 10)) (int() truncates, which
on this nonnegative-in-practice value is the floor), and map to a level. -/
def calculate_risk_score (detections : List Detection) (ia : IpAnalysisResult) : RiskScore :=
  if detections = [] then { score := 0, level := "low", factors := [] }
  else
    let base0 : ℚ :=
      detections.foldl (fun acc d => acc + severityWeight d.severity * d.confidence) 0
    let suspicious_count := ia.suspicious_ips.length
    let base1 := if ia.suspicious_ips ≠ [] then base0 + suspicious_count * 2 else base0
    let base2 := if ia.public_ips > 50 then base1 + 5 else base1
    let factors :=
      (if ia.suspicious_ips ≠ []
        then [toString suspicious_count ++ " suspicious IP(s) detected"] else [])
      ++ (if ia.public_ips > 50 then ["High number of external IPs"] else [])
    let normalized : ℤ := min 100 (base2 / (max 1 (detections.length : ℚ)) * 10).floor
    let level :=
      if normalized ≥ 80 then "critical"
      else if normalized ≥ 60 then "high"
      else if normalized ≥ 30 then "medium"
      else "low"
    { score := normalized, level := level, factors := factors }

/-- severity_order list inside cli._filter_result. -/
def severityOrderList : List Severity := [.low, .medium, .high, .critical]

/-- cli._filter_result from cli.py, restricted to its detection-list logic:
optional minimum-severity filter via positions in severity_order, then an
optional exact category filter. -/
def filter_result (severity : Option Severity) (category : Option String)
    (detections : List Detection) : List Detection :=
  if severity = none ∧ category = none then detections
  else
    let fd := detections
    let fd :=
      match severity with
      | none => fd
      | some s =>
        fd.filter (fun d =>
          severityOrderList.indexOf s ≤ severityOrderList.indexOf d.severity)
    match category with
    | none => fd
    | some c => fd.filter (fun d => d.category == c)

/-- The writer chosen by LogAnalyzer.export_results. -/
inductive ExportAction where
  | toJson
  | toCsv
deriving DecidableEq, Repr

/-- Python str.lower for the ASCII format identifiers involved here. -/
def strLower (s : String) : String := ⟨s.data.map Char.toLower⟩

/-- LogAnalyzer.export_results from analyzer.py: dispatch on the lowercased
format identifier; the ValueError in the final else is raised before either
writer (_export_json / _export_csv, the only code that opens the output
file) runs, modelled as Except.error from a pure dispatch step. -/
def export_results (format_type : String) : Except String ExportAction :=
  if strLower format_type = "json" then .ok .toJson
  else if strLower format_type = "csv" then .ok .toCsv
  else .error ("Unsupported format: " ++ format_type)

/-- Character probability used by calculate_entropy in utils.py:
data.count(chr(x)) / len(data), as a real number. -/
noncomputable def charProb (s : String) (x : ℕ) : ℝ :=
  ((s.data.filter (fun c => c = Char.ofNat x)).length : ℝ) / (s.length : ℝ)

/-- calculate_entropy from utils.py: 0.0 for empty input, otherwise the loop
accumulates `- p_x * (p_x ** 0.5)` over the 256 byte codes, skipping
characters with zero probability. -/
noncomputable def calculate_entropy (s : String) : ℝ :=
  if s = "" then 0
  else ∑ x ∈ Finset.range 256,
    (if 0 < charProb s x then -(charProb s x * Real.sqrt (charProb s x)) else 0)

/-! Spec-side definitions, written from the specification's words, to be
compared with the embeddings above. -/

/-- Confidence formula as worded by the spec: base 0.7, plus severity bonus,
plus 0.1 for more than one match, minus 0.1 when the first match is shorter
than 5 characters, clamped to [0.1, 1.0]. -/
def claimConfidence (rule : Rule) (matchList : List String) : ℚ :=
  let c := 7/10 + severityBoost rule.severity
    + (if matchList.length > 1 then 1/10 else 0)
    - (if (matchList.headD "").length < 5 then 1/10 else 0)
  min 1 (max (1/10) c)

/-- Severity rank under the spec's fixed total order LOW<MEDIUM<HIGH<CRITICAL. -/
def claimRank : Severity → ℕ
  | .low => 0
  | .medium => 1
  | .high => 2
  | .critical => 3

/-- Risk base sum as worded by the spec: severity weight times confidence
summed over detections, plus 2 per suspicious IP, plus a flat 5 when the
public-IP count exceeds 50. -/
def claimRiskBase (ds : List Detection) (ia : IpAnalysisResult) : ℚ :=
  (ds.map (fun d => severityWeight d.severity * d.confidence)).sum
    + 2 * ia.suspicious_ips.length
    + (if ia.public_ips > 50 then 5 else 0)

/-- Risk score normalization as worded by the spec:
clamp(0, 100, floor(sum / max(1, detection_count) * 10)). -/
def claimRiskScoreVal (ds : List Detection) (ia : IpAnalysisResult) : ℤ :=
  min 100 (max 0 (claimRiskBase ds ia / (max 1 (ds.length : ℚ)) * 10).floor)

/-- Risk level mapping as worded by the spec. -/
def claimLevel (score : ℤ) : String :=
  if 80 ≤ score then "critical"
  else if 60 ≤ score then "high"
  else if 30 ≤ score then "medium"
  else "low"

/-- Entropy formula as worded by the claim: the sum over the 256 ASCII codes
of p times the square root of p. -/
noncomputable def claimEntropy (s : String) : ℝ :=
  ∑ x ∈ Finset.range 256, charProb s x * Real.sqrt (charProb s x)

/-! Helper lemmas. -/

/-- The clamp in _calculate_confidence keeps every result inside [0.1, 1]. -/
theorem calculate_confidence_bounds (rule : Rule) (line : String) (ml : List String) :
    1/10 ≤ calculate_confidence rule line ml ∧ calculate_confidence rule line ml ≤ 1 := by
  unfold calculate_confidence
  exact ⟨le_min (by norm_num) (le_max_left _ _), min_le_left _ _⟩

/-- Characterization of the per-rule step of analyze_line. -/
theorem analyzeLineRule_eq_some {compiled : String → Option (String → List String)}
    {line : String} {n : ℕ} {ts : Option String} {rule : Rule} {d : Detection} :
    analyzeLineRule compiled line n ts rule = some d ↔
    ∃ pat m ms, compiled rule.name = some pat ∧ pat line = m :: ms ∧
      d = { rule_name := rule.name, severity := rule.severity,
            description := rule.description, matched_text := m,
            line_number := n, timestamp := ts, category := rule.category,
            tags := rule.tags,
            confidence := calculate_confidence rule line (m :: ms) } := by
  unfold analyzeLineRule
  constructor
  · intro h
    split at h
    · exact absurd h (by simp)
    next pat hc =>
      split at h
      · exact absurd h (by simp)
      next m ms hp =>
        refine ⟨pat, m, ms, hc, hp, ?_⟩
        rw [hp] at h
        exact (Option.some_inj.mp h).symm
  · rintro ⟨pat, m, ms, hc, hp, hd⟩
    simp only [hc, hp, hd]

/-- Every detection analyze_line emits carries its rule's name. -/
theorem mem_analyze_line_name {rules : List Rule}
    {compiled : String → Option (String → List String)}
    {line : String} {n : ℕ} {ts : Option String} {d : Detection}
    (h : d ∈ analyze_line rules compiled line n ts) :
    ∃ r ∈ rules, d.rule_name = r.name := by
  obtain ⟨r, hr, hsome⟩ := List.mem_filterMap.mp h
  obtain ⟨pat, m, ms, _, _, hd⟩ := analyzeLineRule_eq_some.mp hsome
  exact ⟨r, hr, by rw [hd]⟩

/-! Claim C2. -/

/-- C2: the confidence computed by the rule engine for a non-empty match list
equals exactly the spec formula (base 0.7, severity bonus, multi-match bonus,
short-first-match penalty, clamp to [0.1,1.0]), lies in [0.1, 1.0], and
consequently every Detection emitted by analyze_line has confidence in
[0.1, 1.0]. -/
theorem confidence_formula_exact (rule : Rule) (line : String) (matchList : List String)
    (hne : matchList ≠ []) :
    calculate_confidence rule line matchList = claimConfidence rule matchList
    ∧ 1/10 ≤ calculate_confidence rule line matchList
    ∧ calculate_confidence rule line matchList ≤ 1
    ∧ ∀ (rules : List Rule) (compiled : String → Option (String → List String))
        (n : ℕ) (ts : Option String) (d : Detection),
        d ∈ analyze_line rules compiled line n ts →
        1/10 ≤ d.confidence ∧ d.confidence ≤ 1 := by
  refine ⟨?_, (calculate_confidence_bounds rule line matchList).1,
      (calculate_confidence_bounds rule line matchList).2, ?_⟩
  · cases matchList with
    | nil => exact absurd rfl hne
    | cons m ms =>
      unfold calculate_confidence claimConfidence
      simp only [List.headD_cons]
      split_ifs <;> ring_nf
  · intro rules compiled n ts d hd
    obtain ⟨r, hr, hsome⟩ := List.mem_filterMap.mp hd
    obtain ⟨pat, m, ms, _, _, hdet⟩ := analyzeLineRule_eq_some.mp hsome
    rw [hdet]
    exact calculate_confidence_bounds r line (m :: ms)

/-- Witness for C2 at a concrete rule and match list. -/
theorem confidence_formula_exact_witness :
    calculate_confidence
        { name := "w", description := "w", severity := .high, pattern := "p",
          category := "web_attack", tags := [] } "line" ["abcd"]
      = claimConfidence
        { name := "w", description := "w", severity := .high, pattern := "p",
          category := "web_attack", tags := [] } ["abcd"] :=
  (confidence_formula_exact
    { name := "w", description := "w", severity := .high, pattern := "p",
      category := "web_attack", tags := [] } "line" ["abcd"] (by simp)).1

/-! Claim C7. -/

/-- Position in cli.py's severity_order agrees with the spec's rank order. -/
theorem indexOf_severityOrderList (a b : Severity) :
    severityOrderList.indexOf a ≤ severityOrderList.indexOf b ↔
      claimRank a ≤ claimRank b := by
  cases a <;> cases b <;> decide

/-- C7: filtering by a minimum severity returns exactly the detections whose
severity rank is at least the rank of the bound, under the fixed order
LOW<MEDIUM<HIGH<CRITICAL: the filtered list is the rank-based filter of the
input, and membership holds iff the detection qualifies. -/
theorem severity_filter_exact (S : Severity) (ds : List Detection) :
    filter_result (some S) none ds
        = ds.filter (fun d => decide (claimRank S ≤ claimRank d.severity))
    ∧ ∀ d : Detection,
        d ∈ filter_result (some S) none ds ↔
          d ∈ ds ∧ claimRank S ≤ claimRank d.severity := by
  have hform : filter_result (some S) none ds
      = ds.filter (fun d => decide (claimRank S ≤ claimRank d.severity)) := by
    unfold filter_result
    simp only [if_neg (by simp : ¬ (some S = none ∧ (none : Option String) = none))]
    exact List.filter_congr fun d _ =>
      decide_eq_decide.mpr (indexOf_severityOrderList S d.severity)
  refine ⟨hform, fun d => ?_⟩
  rw [hform, List.mem_filter]
  simp

/-! Claim C8. -/

/-- C8: export dispatch is case-insensitive on the format identifier; any
identifier other than json or csv is rejected with a caller error from the
pure dispatch step, before either writer (the only file I/O) runs; json and
csv reach their writers. -/
theorem export_unknown_format_error (fmt : String) :
    (strLower fmt ≠ "json" → strLower fmt ≠ "csv" →
        export_results fmt = .error ("Unsupported format: " ++ fmt))
    ∧ (strLower fmt = "json" → export_results fmt = .ok .toJson)
    ∧ (strLower fmt = "csv" → export_results fmt = .ok .toCsv) := by
  refine ⟨fun h1 h2 => ?_, fun h1 => ?_, fun h1 => ?_⟩
  · simp [export_results, h1, h2]
  · simp [export_results, h1]
  · have h2 : strLower fmt ≠ "json" := by rw [h1]; decide
    simp [export_results, h1, h2]

/-- Witness for C8: the format identifier xml is rejected, JSON (uppercase)
is accepted. -/
theorem export_unknown_format_error_witness :
    export_results "xml" = .error ("Unsupported format: " ++ "xml")
    ∧ export_results "JSON" = .ok .toJson :=
  ⟨(export_unknown_format_error "xml").1 (by decide) (by decide),
   (export_unknown_format_error "JSON").2.1 (by decide)⟩

/-! Claim C5. -/

/-- C5: for a rule whose findall yields at least one match on the line,
analyze_line emits exactly one Detection for that rule, never one per match
occurrence: filtering the output by the rule's name gives the singleton
detection whose matched_text is the first match and whose line number and
timestamp are the caller's. -/
theorem one_detection_per_matching_rule (rules : List Rule)
    (compiled : String → Option (String → List String))
    (line : String) (n : ℕ) (ts : Option String) (r : Rule)
    (pat : String → List String) (m : String) (ms : List String)
    (hr : r ∈ rules) (hnd : (rules.map Rule.name).Nodup)
    (hc : compiled r.name = some pat) (hm : pat line = m :: ms) :
    (analyze_line rules compiled line n ts).filter
        (fun d => d.rule_name == r.name)
      = [{ rule_name := r.name, severity := r.severity, description := r.description,
           matched_text := m, line_number := n, timestamp := ts,
           category := r.category, tags := r.tags,
           confidence := calculate_confidence r line (m :: ms) }] := by
  induction rules with
  | nil => exact absurd hr (by simp)
  | cons a rest ih =>
    have hnd' : (rest.map Rule.name).Nodup := (List.nodup_cons.mp hnd).2
    have hanotin : a.name ∉ rest.map Rule.name := (List.nodup_cons.mp hnd).1
    rcases List.mem_cons.mp hr with hra | hrr
    · subst hra
      have hstep : analyzeLineRule compiled line n ts r
          = some { rule_name := r.name, severity := r.severity,
                   description := r.description, matched_text := m,
                   line_number := n, timestamp := ts, category := r.category,
                   tags := r.tags,
                   confidence := calculate_confidence r line (m :: ms) } :=
        analyzeLineRule_eq_some.mpr ⟨pat, m, ms, hc, hm, rfl⟩
      have hrest : (analyze_line rest compiled line n ts).filter
          (fun d => d.rule_name == r.name) = [] := by
        rw [List.filter_eq_nil_iff]
        intro d hd
        obtain ⟨r', hr', hname⟩ := mem_analyze_line_name hd
        have : r'.name ≠ r.name := by
          intro hcontra
          exact hanotin (hcontra ▸ List.mem_map_of_mem Rule.name hr')
        simp [hname, this]
      rw [analyze_line, List.filterMap_cons, hstep]
      simp only [List.filter_cons]
      rw [show (analyze_line rest compiled line n ts) = rest.filterMap
            (analyzeLineRule compiled line n ts) from rfl] at hrest
      simp [hrest]
    · have hname_ne : a.name ≠ r.name := by
        intro hcontra
        exact hanotin (hcontra ▸ List.mem_map_of_mem Rule.name hrr)
      rw [analyze_line, List.filterMap_cons]
      cases hstep : analyzeLineRule compiled line n ts a with
      | none => exact ih hrr hnd'
      | some d =>
        obtain ⟨pat', m', ms', _, _, hd⟩ := analyzeLineRule_eq_some.mp hstep
        have : (d.rule_name == r.name) = false := by
          rw [hd]
          simpa using hname_ne
        simp only [List.filter_cons, this, if_neg Bool.false_ne_true]
        exact ih hrr hnd'

/-- Witness for C5 on a concrete two-rule catalog where the first rule
matches twice on the line. -/
theorem one_detection_per_matching_rule_witness :
    (analyze_line
        [{ name := "r1", description := "d1", severity := .medium, pattern := "p1",
           category := "c1", tags := [] },
         { name := "r2", description := "d2", severity := .low, pattern := "p2",
           category := "c2", tags := [] }]
        (fun name => if name = "r1" then some (fun _ => ["abcde", "xy"]) else some (fun _ => []))
        "the line" 7 (some "t")).filter (fun d => d.rule_name == "r1")
      = [{ rule_name := "r1", severity := .medium, description := "d1",
           matched_text := "abcde", line_number := 7, timestamp := some "t",
           category := "c1", tags := [],
           confidence := calculate_confidence
             { name := "r1", description := "d1", severity := .medium, pattern := "p1",
               category := "c1", tags := [] } "the line" ["abcde", "xy"] }] :=
  one_detection_per_matching_rule
    [{ name := "r1", description := "d1", severity := .medium, pattern := "p1",
       category := "c1", tags := [] },
     { name := "r2", description := "d2", severity := .low, pattern := "p2",
       category := "c2", tags := [] }]
    (fun name => if name = "r1" then some (fun _ => ["abcde", "xy"]) else some (fun _ => []))
    "the line" 7 (some "t")
    { name := "r1", description := "d1", severity := .medium, pattern := "p1",
      category := "c1", tags := [] }
    (fun _ => ["abcde", "xy"]) "abcde" ["xy"]
    (by simp) (by decide) (by simp) rfl

/-! Claim C6. -/

/-- parse_lines keeps at most one entry per input line. -/
theorem parse_lines_length_le (parsers : List Parser) :
    ∀ (l : List String) (s : ℕ), (parse_lines parsers l s).length ≤ l.length := by
  intro l
  induction l with
  | nil => intro s; simp [parse_lines]
  | cons line rest ih =>
    intro s
    rw [parse_lines]
    cases parse_line parsers line s with
    | some e => simpa using ih (s + 1)
    | none => exact le_trans (ih (s + 1)) (by simp)

/-- The chunk loop of analyze_file preserves parsedLines ≤ totalLines. -/
theorem fileLoop_parsed_le_total (parsers : List Parser) (rules : List Rule)
    (compiled : String → Option (String → List String)) :
    ∀ (chunks : List (List String)) (st : FileLoopState),
      st.parsedLines ≤ st.totalLines →
      (chunks.foldl (fileLoopStep parsers rules compiled) st).parsedLines
        ≤ (chunks.foldl (fileLoopStep parsers rules compiled) st).totalLines := by
  intro chunks
  induction chunks with
  | nil => intro st h; simpa using h
  | cons c rest ih =>
    intro st h
    refine ih _ ?_
    simp only [fileLoopStep]
    exact Nat.add_le_add h (parse_lines_length_le parsers c (st.totalLines + 1))

/-- C6: for every input, whether analyzed through the chunked file loop or as
raw text, the count of successfully parsed lines never exceeds the count of
lines processed: each raw line yields at most one LogEntry. -/
theorem parsed_lines_le_total_lines (parsers : List Parser) (rules : List Rule)
    (compiled : String → Option (String → List String))
    (chunk_size : ℕ) (lines : List String) (max_lines : Option ℕ) (text : String) :
    (analyzeFileLoop parsers rules compiled
        (read_in_chunks chunk_size lines max_lines)).parsedLines
      ≤ (analyzeFileLoop parsers rules compiled
        (read_in_chunks chunk_size lines max_lines)).totalLines
    ∧ (analyze_text_counts parsers text).2 ≤ (analyze_text_counts parsers text).1 := by
  constructor
  · exact fileLoop_parsed_le_total parsers rules compiled _ _ (le_refl 0)
  · exact parse_lines_length_le parsers _ 1

/-! Claim C1. -/

/-- Rat.floor agrees with the mathematical floor. -/
theorem rat_floor_eq (q : ℚ) : q.floor = ⌊q⌋ :=
  ((Rat.floor_def' q) ▸ Rat.floor_def : ⌊q⌋ = q.floor).symm

/-- Severity weights are nonnegative. -/
theorem severityWeight_nonneg (s : Severity) : (0:ℚ) ≤ severityWeight s := by
  cases s <;> norm_num [severityWeight]

/-- The risk-score accumulation loop is the spec's weighted sum. -/
theorem risk_foldl_eq_sum (ds : List Detection) :
    ds.foldl (fun acc d => acc + severityWeight d.severity * d.confidence) 0
      = (ds.map (fun d => severityWeight d.severity * d.confidence)).sum := by
  rw [List.sum_eq_foldl, List.foldl_map]

/-- The spec's risk base is nonnegative when all confidences are. -/
theorem claimRiskBase_nonneg (ds : List Detection) (ia : IpAnalysisResult)
    (h : ∀ d ∈ ds, 0 ≤ d.confidence) : 0 ≤ claimRiskBase ds ia := by
  unfold claimRiskBase
  have hsum : 0 ≤ (ds.map (fun d => severityWeight d.severity * d.confidence)).sum := by
    refine List.sum_nonneg ?_
    intro x hx
    obtain ⟨d, hd, rfl⟩ := List.mem_map.mp hx
    exact mul_nonneg (severityWeight_nonneg d.severity) (h d hd)
  have hite : (0:ℚ) ≤ if ia.public_ips > 50 then 5 else 0 := by split <;> norm_num
  have hlen : (0:ℚ) ≤ 2 * ia.suspicious_ips.length := by positivity
  linarith

/-- Core computation of _calculate_risk_score on a non-empty detection list:
the score is min(100, floor(base / max(1,n) * 10)) with the spec's base, and
that floor is nonnegative under nonnegative confidences. -/
theorem risk_score_main (ds : List Detection) (ia : IpAnalysisResult)
    (hds : ds ≠ []) (h : ∀ d ∈ ds, 0 ≤ d.confidence) :
    (calculate_risk_score ds ia).score
        = min 100 ((claimRiskBase ds ia / (max 1 (ds.length : ℚ)) * 10).floor)
    ∧ 0 ≤ (claimRiskBase ds ia / (max 1 (ds.length : ℚ)) * 10).floor := by
  constructor
  · simp only [calculate_risk_score, if_neg hds]
    congr 2
    rcases eq_or_ne ia.suspicious_ips [] with hs | hs <;>
      by_cases hp : ia.public_ips > 50 <;>
        simp [claimRiskBase, hs, hp, risk_foldl_eq_sum] <;> ring
  · have hk : (0:ℚ) < max 1 (ds.length : ℚ) :=
      lt_of_lt_of_le one_pos (le_max_left _ _)
    have hq : 0 ≤ claimRiskBase ds ia / (max 1 (ds.length : ℚ)) * 10 :=
      mul_nonneg (div_nonneg (claimRiskBase_nonneg ds ia h) (le_of_lt hk)) (by norm_num)
    rw [rat_floor_eq]
    exact Int.floor_nonneg.mpr hq

/-- The level reported by _calculate_risk_score is the spec mapping applied
to its own score, in the empty and non-empty cases alike. -/
theorem risk_score_level_eq (ds : List Detection) (ia : IpAnalysisResult) :
    (calculate_risk_score ds ia).level
      = claimLevel (calculate_risk_score ds ia).score := by
  by_cases hds : ds = [] <;>
    simp [calculate_risk_score, hds, claimLevel, ge_iff_le]

/-- C1: the risk score equals the spec formula exactly (severity weights
{1,3,7,15} times confidence, plus 2 per suspicious IP, plus 5 beyond 50
public IPs, normalized by clamp(0,100,floor(sum / max(1,n) * 10))), the level
is the spec mapping of the score, the score always lies in [0,100], and zero
detections give score 0, level low and an empty factor list. Nonnegative
confidences are the Detection data-model invariant. -/
theorem risk_score_exact (ds : List Detection) (ia : IpAnalysisResult)
    (h : ∀ d ∈ ds, 0 ≤ d.confidence) :
    ((calculate_risk_score ds ia).score
        = if ds = [] then 0 else claimRiskScoreVal ds ia)
    ∧ (calculate_risk_score ds ia).level
        = claimLevel (calculate_risk_score ds ia).score
    ∧ calculate_risk_score [] ia = { score := 0, level := "low", factors := [] }
    ∧ 0 ≤ (calculate_risk_score ds ia).score
    ∧ (calculate_risk_score ds ia).score ≤ 100 := by
  have hempty : calculate_risk_score [] ia = { score := 0, level := "low", factors := [] } := by
    simp [calculate_risk_score]
  by_cases hds : ds = []
  · subst hds
    refine ⟨by simp [hempty], risk_score_level_eq [] ia, hempty, ?_, ?_⟩
    · simp [hempty]
    · simp [hempty]
  · obtain ⟨hscore, hfl⟩ := risk_score_main ds ia hds h
    have hval : claimRiskScoreVal ds ia
        = min 100 ((claimRiskBase ds ia / (max 1 (ds.length : ℚ)) * 10).floor) := by
      unfold claimRiskScoreVal
      rw [max_eq_right hfl]
    refine ⟨?_, risk_score_level_eq ds ia, hempty, ?_, ?_⟩
    · rw [if_neg hds, hscore, hval]
    · rw [hscore]
      exact le_min (by norm_num) hfl
    · rw [hscore]
      exact min_le_left _ _

/-- Concrete detection list used by the C1 witness. -/
def witnessDetections : List Detection :=
  [{ rule_name := "r", severity := .high, description := "d",
     matched_text := "mmmmm", line_number := 1, timestamp := none,
     category := "c", tags := [], confidence := 1 }]

/-- Concrete empty IP analysis used by the C1 witness. -/
def witnessIpAnalysis : IpAnalysisResult :=
  { total_unique_ips := 0, private_ips := 0, public_ips := 0,
    top_ips := [], suspicious_ips := [] }

/-- Witness for C1 on one concrete HIGH-severity detection with confidence 1. -/
theorem risk_score_exact_witness :
    ((calculate_risk_score witnessDetections witnessIpAnalysis).score
      = if witnessDetections = [] then 0
        else claimRiskScoreVal witnessDetections witnessIpAnalysis)
    ∧ 0 ≤ (calculate_risk_score witnessDetections witnessIpAnalysis).score
    ∧ (calculate_risk_score witnessDetections witnessIpAnalysis).score ≤ 100 :=
  ⟨(risk_score_exact witnessDetections witnessIpAnalysis
      (by intro d hd; simp [witnessDetections] at hd; rw [hd]; norm_num)).1,
   (risk_score_exact witnessDetections witnessIpAnalysis
      (by intro d hd; simp [witnessDetections] at hd; rw [hd]; norm_num)).2.2.2.1,
   (risk_score_exact witnessDetections witnessIpAnalysis
      (by intro d hd; simp [witnessDetections] at hd; rw [hd]; norm_num)).2.2.2.2⟩

/-! Claim C4. -/

/-- parse_line skips rejecting parsers and commits to the first acceptor. -/
theorem parse_line_append (ps₁ : List Parser) (p : Parser) (ps₂ : List Parser)
    (line : String) (n : ℕ)
    (h₁ : ∀ q ∈ ps₁, q.canParse line = false) (h₂ : p.canParse line = true) :
    parse_line (ps₁ ++ p :: ps₂) line n = p.parse line n := by
  induction ps₁ with
  | nil => simp [parse_line, h₂]
  | cons q rest ih =>
    rw [List.cons_append, parse_line, if_neg (by simp [h₁ q (by simp)])]
    exact ih fun q' hq' => h₁ q' (List.mem_cons_of_mem q hq')

/-- C4: the manager's chain is the fixed order Apache/Nginx, Syslog, Windows
Event, Firewall, JSON, Generic fallback; for any split of that list into
rejecting parsers, a first acceptor p, and the rest, parse_line returns
exactly p's parse result — so when p.parse yields no entry the line yields
none and no later parser is tried. -/
theorem parser_chain_order_and_commit
    (apache syslog windowsEvent firewall jsonP generic : Parser)
    (line : String) (n : ℕ) (ps₁ ps₂ : List Parser) (p : Parser)
    (hsplit : managerParsers apache syslog windowsEvent firewall jsonP generic
        = ps₁ ++ p :: ps₂)
    (h₁ : ∀ q ∈ ps₁, q.canParse line = false) (h₂ : p.canParse line = true) :
    parse_line (managerParsers apache syslog windowsEvent firewall jsonP generic) line n
        = p.parse line n
    ∧ (p.parse line n = none →
        parse_line (managerParsers apache syslog windowsEvent firewall jsonP generic) line n
          = none) := by
  have hmain : parse_line (managerParsers apache syslog windowsEvent firewall jsonP generic)
      line n = p.parse line n := by
    rw [hsplit]
    exact parse_line_append ps₁ p ps₂ line n h₁ h₂
  exact ⟨hmain, fun hnone => hmain.trans hnone⟩

/-- Rejecting parser used by the C4 witness. -/
def witnessParserOff : Parser :=
  { name := "off", canParse := fun _ => false, parse := fun _ _ => none }

/-- Accepting parser whose parse fails, used by the C4 witness. -/
def witnessParserNo : Parser :=
  { name := "syslog", canParse := fun _ => true, parse := fun _ _ => none }

/-- Accepting parser whose parse succeeds, used by the C4 witness. -/
def witnessParserYes : Parser :=
  { name := "generic", canParse := fun _ => true,
    parse := fun l k =>
      some { raw_line := l, timestamp := none, source_ip := none,
             message := l, fields := [], log_type := "generic", line_number := k } }

/-- Witness for C4: the second parser accepts the line but fails to parse it;
the line is dropped even though the terminal fallback would have produced an
entry. -/
theorem parser_chain_order_and_commit_witness :
    parse_line
        (managerParsers witnessParserOff witnessParserNo witnessParserOff
          witnessParserOff witnessParserOff witnessParserYes) "x" 3
      = none :=
  (parser_chain_order_and_commit witnessParserOff witnessParserNo witnessParserOff
      witnessParserOff witnessParserOff witnessParserYes "x" 3
      [witnessParserOff]
      [witnessParserOff, witnessParserOff, witnessParserOff, witnessParserYes]
      witnessParserNo rfl
      (by intro q hq; simp at hq; rw [hq]; rfl) rfl).2 rfl

/-! Claim C3. -/

/-- Single rule of the chunk-offset demonstration catalog. -/
def chunkRule : Rule :=
  { name := "r", description := "d", severity := .high, pattern := "attack",
    category := "c", tags := [] }

/-- Compiled-pattern table of the demonstration catalog: the pattern matches
exactly the line "attack". -/
def chunkCompiled : String → Option (String → List String) :=
  fun _ => some (fun l => if l = "attack" then ["attack"] else [])

/-- Demonstration input: 10000 benign lines followed by one matching line,
so the matching line is line 10001 of the file and falls into the second
chunk of the default chunk_size = 10000. -/
def chunkDemoLines : List String := List.replicate 10000 "ok" ++ ["attack"]

/-- Unfolding lemma for chunksOf on non-empty input. -/
theorem chunksOf_ne_nil (n : ℕ) (l : List String) (h : l ≠ []) :
    chunksOf n l = l.take (max n 1) :: chunksOf n (l.drop (max n 1)) := by
  cases l with
  | nil => exact absurd rfl h
  | cons x xs => rw [chunksOf]

/-- chunksOf of the empty list is empty. -/
theorem chunksOf_nil (n : ℕ) : chunksOf n [] = [] := by
  rw [chunksOf]

/-- The demonstration catalog finds nothing on a benign line. -/
theorem analyze_line_demo_ok (k : ℕ) :
    analyze_line [chunkRule] chunkCompiled "ok" k none = [] := rfl

/-- The demonstration catalog finds nothing in a block of benign lines. -/
theorem analyze_log_chunk_demo_ok (n : ℕ) :
    ∀ s : ℕ, analyze_log_chunk [chunkRule] chunkCompiled (List.replicate n "ok") s = [] := by
  induction n with
  | zero => intro s; rfl
  | succ m ih =>
    intro s
    rw [List.replicate_succ, analyze_log_chunk, analyze_line_demo_ok s, List.nil_append]
    exact ih (s + 1)

/-- parse_lines with an empty parser chain parses nothing. -/
theorem parse_lines_no_parsers : ∀ (l : List String) (s : ℕ), parse_lines [] l s = [] := by
  intro l
  induction l with
  | nil => intro s; rfl
  | cons a r ih =>
    intro s
    rw [parse_lines]
    exact ih (s + 1)

/-- The demonstration input is 10001 lines long. -/
theorem chunkDemoLines_length : chunkDemoLines.length = 10001 := by
  rw [chunkDemoLines, List.length_append, List.length_replicate]
  rfl

/-- The demonstration input is non-empty. -/
theorem chunkDemoLines_ne_nil : chunkDemoLines ≠ [] := by
  intro hcontra
  have h := chunkDemoLines_length
  rw [hcontra] at h
  exact absurd h (by decide)

/-- The demo input splits into one full chunk and one single-line chunk. -/
theorem chunkDemoLines_chunks :
    read_in_chunks 10000 chunkDemoLines none
      = [List.replicate 10000 "ok", ["attack"]] := by
  have hlen : (List.replicate 10000 "ok" : List String).length = 10000 :=
    List.length_replicate _ _
  rw [read_in_chunks]
  rw [chunksOf_ne_nil _ _ chunkDemoLines_ne_nil]
  rw [show max 10000 1 = 10000 from rfl]
  rw [show chunkDemoLines.take 10000 = List.replicate 10000 "ok" from List.take_left' hlen]
  rw [show chunkDemoLines.drop 10000 = ["attack"] from List.drop_left' hlen]
  rw [chunksOf_ne_nil _ _ (by simp)]
  rw [show max 10000 1 = 10000 from rfl]
  rw [show (["attack"] : List String).take 10000 = ["attack"] from rfl]
  rw [show (["attack"] : List String).drop 10000 = [] from rfl]
  rw [chunksOf_nil]

/-- C3 (failing-input demonstration): on a 10001-line input whose only
matching line is the last one, the analyze_file chunk loop emits that
detection with line_number 1 — the chunk-relative position, because the
source passes no start offset to analyze_log_chunk — although the line is
line 10001 of the input, as the global numbering used for parsed entries
would require. -/
theorem chunk_line_number_restart_demo :
    ((analyzeFileLoop [] [chunkRule] chunkCompiled
        (read_in_chunks 10000 chunkDemoLines none)).detections.map
          (fun d => d.line_number)) = [1]
    ∧ chunkDemoLines.length = 10001
    ∧ chunkDemoLines.drop 10000 = ["attack"]
    ∧ (1 : ℕ) ≠ 10001 := by
  have hstep1 : fileLoopStep [] [chunkRule] chunkCompiled ⟨0, 0, [], []⟩
      (List.replicate 10000 "ok") = ⟨10000, 0, [], []⟩ := by
    simp only [fileLoopStep, parse_lines_no_parsers,
      analyze_log_chunk_demo_ok, List.length_replicate, List.length_nil,
      List.append_nil, List.nil_append]
  have hstep2 : fileLoopStep [] [chunkRule] chunkCompiled ⟨10000, 0, [], []⟩
      ["attack"]
      = ⟨10001, 0, [], analyze_line [chunkRule] chunkCompiled "attack" 1 none⟩ := by
    simp only [fileLoopStep, parse_lines_no_parsers, analyze_log_chunk,
      List.length_cons, List.length_nil, List.append_nil, List.nil_append]
  refine ⟨?_, chunkDemoLines_length, ?_, by decide⟩
  · rw [chunkDemoLines_chunks, analyzeFileLoop, List.foldl_cons, hstep1,
      List.foldl_cons, hstep2, List.foldl_nil]
    rfl
  · exact List.drop_left' (List.length_replicate _ _)

/-! Claim C9. -/

/-- Character probabilities are nonnegative. -/
theorem charProb_nonneg (s : String) (x : ℕ) : 0 ≤ charProb s x := by
  unfold charProb
  positivity

set_option maxRecDepth 4000 in
/-- In the string "a", only character code 97 has nonzero count. -/
theorem count_a_eq_zero :
    ∀ y ∈ Finset.range 256, y ≠ 97 →
      (("a" : String).data.filter (fun c => c = Char.ofNat y)).length = 0 := by
  decide

/-- Character probabilities in the one-character string "a". -/
theorem charProb_a (x : ℕ) (hx : x ∈ Finset.range 256) :
    charProb "a" x = if x = 97 then 1 else 0 := by
  by_cases h97 : x = 97
  · subst h97
    have hcount : (("a" : String).data.filter (fun c => c = Char.ofNat 97)).length = 1 := by
      decide
    rw [charProb, hcount, show ("a" : String).length = 1 from rfl, if_pos rfl]
    norm_num
  · rw [charProb, count_a_eq_zero x hx h97, if_neg h97]
    norm_num

/-- The code's entropy of "a" is minus one. -/
theorem calculate_entropy_a : calculate_entropy "a" = -1 := by
  rw [calculate_entropy, if_neg (by decide)]
  rw [Finset.sum_eq_single_of_mem 97 (by decide)]
  · rw [charProb_a 97 (by decide), if_pos rfl]
    norm_num
  · intro b hb hb97
    rw [charProb_a b hb, if_neg hb97]
    norm_num

/-- The claimed entropy of "a" is plus one. -/
theorem claimEntropy_a : claimEntropy "a" = 1 := by
  rw [claimEntropy]
  rw [Finset.sum_eq_single_of_mem 97 (by decide)]
  · rw [charProb_a 97 (by decide), if_pos rfl]
    norm_num
  · intro b hb hb97
    rw [charProb_a b hb, if_neg hb97]
    norm_num

/-- Counterexample to C9: on the input "a" the helper returns -1, not the
claimed sum of p times square root of p, which is +1: the loop accumulates
`- p_x * (p_x ** 0.5)`, the negated series. -/
theorem entropy_claim_counterexample :
    calculate_entropy "a" = -1 ∧ claimEntropy "a" = 1
    ∧ calculate_entropy "a" ≠ claimEntropy "a" := by
  refine ⟨calculate_entropy_a, claimEntropy_a, ?_⟩
  rw [calculate_entropy_a, claimEntropy_a]
  norm_num

/-- C9 (amended): calculate_entropy equals the NEGATED series: minus the sum
over the 256 ASCII codes of p times the square root of p; on the empty
string it is 0. -/
theorem entropy_negated_series (s : String) :
    calculate_entropy s = -(claimEntropy s) ∧ calculate_entropy "" = 0 := by
  constructor
  · by_cases hs : s = ""
    · subst hs
      rw [calculate_entropy, if_pos rfl, claimEntropy]
      have hzero : ∀ x ∈ Finset.range 256, charProb "" x * Real.sqrt (charProb "" x) = 0 := by
        intro x _
        rw [charProb]
        norm_num
      rw [Finset.sum_congr rfl hzero]
      simp
    · rw [calculate_entropy, if_neg hs, claimEntropy, ← Finset.sum_neg_distrib]
      refine Finset.sum_congr rfl ?_
      intro x _
      by_cases hp : 0 < charProb s x
      · rw [if_pos hp]
      · rw [if_neg hp]
        have hzero : charProb s x = 0 := le_antisymm (not_lt.mp hp) (charProb_nonneg s x)
        rw [hzero]
        simp
  · rw [calculate_entropy, if_pos rfl]

/-! Claim C10. -/

/-- A dictionary write adds at most the written key. -/
theorem mem_keys_setStat : ∀ (l : List (String × IPStat)) (ip : String) (st : IPStat)
    (k : String), k ∈ (setStat l ip st).map Prod.fst → k ∈ l.map Prod.fst ∨ k = ip := by
  intro l
  induction l with
  | nil =>
    intro ip st k h
    simp [setStat] at h
    exact Or.inr h
  | cons p rest ih =>
    intro ip st k h
    obtain ⟨pk, pv⟩ := p
    rw [setStat] at h
    by_cases hpk : pk = ip
    · rw [if_pos hpk] at h
      simp only [List.map_cons, List.mem_cons] at h ⊢
      exact Or.inl h
    · rw [if_neg hpk] at h
      simp only [List.map_cons, List.mem_cons] at h ⊢
      rcases h with hk | hk
      · exact Or.inl (Or.inl hk)
      · rcases ih ip st k hk with h1 | h2
        · exact Or.inl (Or.inr h1)
        · exact Or.inr h2

/-- A successful dictionary lookup means the key is present. -/
theorem lookupStat_mem_keys : ∀ (l : List (String × IPStat)) (ip : String) (v : IPStat),
    lookupStat l ip = some v → ip ∈ l.map Prod.fst := by
  intro l
  induction l with
  | nil => intro ip v h; simp [lookupStat] at h
  | cons p rest ih =>
    intro ip v h
    obtain ⟨pk, pv⟩ := p
    rw [lookupStat] at h
    by_cases hpk : pk = ip
    · simp only [List.map_cons, List.mem_cons]
      exact Or.inl hpk.symm
    · rw [if_neg hpk] at h
      simp only [List.map_cons, List.mem_cons]
      exact Or.inr (ih ip v h)

/-- The per-entry step adds only the entry's validated source IP as a key. -/
theorem mem_keys_ipEntryStep (valid priv : String → Bool)
    (stats : List (String × IPStat)) (e : LogEntry) (k : String)
    (h : k ∈ (ipEntryStep valid priv stats e).map Prod.fst) :
    k ∈ stats.map Prod.fst ∨ (valid k = true ∧ e.source_ip = some k) := by
  unfold ipEntryStep at h
  split at h
  · exact Or.inl h
  next ip hsrc =>
    split at h
    next hv =>
      rcases mem_keys_setStat _ _ _ _ h with hk | hk
      · exact Or.inl hk
      · subst hk
        exact Or.inr ⟨hv, hsrc⟩
    next hv => exact Or.inl h

/-- The per-detection step never adds a key: it only appends detections to
records that already exist. -/
theorem mem_keys_ipDetStep (extract : String → List String)
    (st : List (String × IPStat)) (d : Detection) (k : String)
    (h : k ∈ (ipDetStep extract st d).map Prod.fst) : k ∈ st.map Prod.fst := by
  rw [ipDetStep] at h
  generalize extract d.matched_text = ips at h
  induction ips generalizing st with
  | nil => exact h
  | cons ip rest ih =>
    rw [List.foldl_cons] at h
    have hsub := ih _ h
    simp only [] at hsub
    cases hl : lookupStat st ip with
    | none => rw [hl] at hsub; exact hsub
    | some cur =>
      rw [hl] at hsub
      rcases mem_keys_setStat _ _ _ _ hsub with hk | hk
      · exact hk
      · exact hk ▸ lookupStat_mem_keys _ _ _ hl

/-- Folding the detection-association pass preserves the key set. -/
theorem dets_fold_keys (extract : String → List String) :
    ∀ (ds : List Detection) (stats : List (String × IPStat)) (k : String),
      k ∈ ((ds.foldl (ipDetStep extract) stats).map Prod.fst) →
      k ∈ stats.map Prod.fst := by
  intro ds
  induction ds with
  | nil => intro stats k h; exact h
  | cons d rest ih =>
    intro stats k h
    rw [List.foldl_cons] at h
    exact mem_keys_ipDetStep extract stats d k (ih _ k h)

/-- Every key produced by the entry pass is a validated source IP of one of
the entries. -/
theorem entries_fold_keys (valid priv : String → Bool) :
    ∀ (es : List LogEntry) (stats : List (String × IPStat)) (k : String),
      k ∈ ((es.foldl (ipEntryStep valid priv) stats).map Prod.fst) →
      k ∈ stats.map Prod.fst
        ∨ (valid k = true ∧ es.any (fun e => e.source_ip == some k) = true) := by
  intro es
  induction es with
  | nil => intro stats k h; exact Or.inl h
  | cons e rest ih =>
    intro stats k h
    rw [List.foldl_cons] at h
    rcases ih _ k h with hk | hfound
    · rcases mem_keys_ipEntryStep valid priv stats e k hk with h1 | h2
      · exact Or.inl h1
      · refine Or.inr ⟨h2.1, ?_⟩
        rw [List.any_cons, h2.2]
        simp
    · refine Or.inr ⟨hfound.1, ?_⟩
      rw [List.any_cons, hfound.2]
      simp

/-- The geolocation pass preserves the key list. -/
theorem geo_keys : ∀ (stats : List (String × IPStat)),
    (stats.map ipGeoStep).map Prod.fst = stats.map Prod.fst := by
  have hfst : ∀ p : String × IPStat, (ipGeoStep p).1 = p.1 := by
    intro p
    rw [ipGeoStep]
    split <;> rfl
  intro stats
  induction stats with
  | nil => rfl
  | cons p rest ih =>
    simp only [List.map_cons]
    rw [hfst p, ih]

/-- C10: every IP reported in top_ips or suspicious_ips by _analyze_ips
passes the IP validator and is the source_ip of at least one entry; hence a
detection whose matched_text mentions an IP that was never a validated
source_ip is associated with no record and creates no suspicious-IP entry. -/
theorem ip_analysis_ips_from_entries (valid priv : String → Bool)
    (extract : String → List String) (entries : List LogEntry)
    (detections : List Detection) (ip : String)
    (h : ip ∈ (analyze_ips valid priv extract entries detections).top_ips.map Prod.fst
       ∨ ip ∈ (analyze_ips valid priv extract entries detections).suspicious_ips.map Prod.fst) :
    valid ip = true ∧ entries.any (fun e => e.source_ip == some ip) = true := by
  simp only [analyze_ips] at h
  have hkey : ip ∈ (((detections.foldl (ipDetStep extract)
      (entries.foldl (ipEntryStep valid priv) [])).map ipGeoStep).map Prod.fst) := by
    rcases h with htop | hsusp
    · obtain ⟨p, hp, rfl⟩ := List.mem_map.mp htop
      exact List.mem_map_of_mem Prod.fst
        (List.mem_mergeSort.mp (List.take_subset _ _ hp))
    · obtain ⟨p, hp, rfl⟩ := List.mem_map.mp hsusp
      exact List.mem_map_of_mem Prod.fst (List.mem_of_mem_filter hp)
  rw [geo_keys] at hkey
  have hkey1 := dets_fold_keys extract detections _ ip hkey
  rcases entries_fold_keys valid priv entries [] ip hkey1 with habs | hgood
  · simp at habs
  · exact hgood

/-- Concrete entry for the C10 witness. -/
def witnessEntry : LogEntry :=
  { raw_line := "x", timestamp := none, source_ip := some "9.9.9.9",
    message := "x", fields := [], log_type := "generic", line_number := 1 }

/-- Concrete detection for the C10 witness, mentioning the entry's IP. -/
def witnessIpDetection : Detection :=
  { rule_name := "r", severity := .low, description := "d",
    matched_text := "9.9.9.9", line_number := 1, timestamp := none,
    category := "c", tags := [], confidence := 1 }

/-- Witness for C10 on a one-entry, one-detection run where the IP becomes
suspicious. -/
theorem ip_analysis_ips_from_entries_witness :
    (fun _ => true : String → Bool) "9.9.9.9" = true
    ∧ ([witnessEntry].any (fun e => e.source_ip == some "9.9.9.9")) = true :=
  ip_analysis_ips_from_entries (fun _ => true) (fun _ => false) (fun s => [s])
    [witnessEntry] [witnessIpDetection] "9.9.9.9" (Or.inr (by decide))

end LogSentry
